import Mathlib

/-!
Verification development for the clik-wtforms core (`clik_wtforms.py`):
a shallow embedding of the argument-surface compiler (`_configure_parser`),
the form-data binder (`_populate_formdata` / `_bind_formdata` / `bind_args`),
the default resolver, the `Multidict` adapter, the error reporter
(`print_errors`) and the constructor (`__init__`), together with theorems
about the specified properties.

Field names are modelled as `List Char` (the source manipulates them with
single-character `str.replace`, slicing and concatenation, which map
directly onto list operations).  Date/time field kinds are not modelled:
no verified property concerns their format notes, and their handling is
orthogonal to every other field category.
-/

namespace ClikWtforms

/-- A field name (a Python string), as a list of characters. -/
abbrev Name := List Char

/-- A Python value as it flows between the argument parser and the
`Multidict`: a string, a list of strings (as produced by an
`action='append'` argument), or an opaque non-list object such as the
sentinel `object()`. -/
inductive PyVal where
  | str (s : Name)
  | list (l : List Name)
  | obj
  deriving DecidableEq

/-- A field default as consumed by `_configure_parser`: Python `None`, a
plain value rendered via `str`, or a zero-argument callable identified by
an abstract identity (for membership in `COMMON_DEFAULT_CALLABLES`) with
an optional `__clik_wtf__` human-readable tag. -/
inductive PyDefault where
  | pynone
  | value (s : Name)
  | callable (id : Nat) (tag : Option Name)
  deriving DecidableEq

/-- The category of a leaf field, as distinguished by the `isinstance`
checks in `_configure_parser`, `_populate_formdata` and `print_errors`.
`primitive` covers the Decimal/Float/Integer/String fields. -/
inductive FieldKind where
  | primitive
  | select (choices : List Name)
  | selectMultiple (choices : List Name)
  | fieldList
  | unsupported (typeName : Name)
  deriving DecidableEq

/-- The record `_clik_constructor_kwargs` built by `Form.__init__`. -/
structure CtorKwargs where
  data : Option (List (Name × PyDefault))
  kwargs : List (Name × PyVal)
  meta : Option Name
  obj : Option (List (Name × PyDefault))
  pfx : Name
  deriving DecidableEq

/-- A node of the field tree.  A `leaf` carries its name segment, its
kind, its configured default (`field.default`) and its recorded
validation errors (`field.errors`).  A `comp` node is a `FormField`
wrapping a subform; it carries the inner form's own recorded constructor
kwargs.  By the external naming convention, the full name of a node is
the hyphen-join of the segments on its path. -/
inductive FieldNode where
  | leaf (seg : Name) (kind : FieldKind) (dflt : PyDefault) (errors : List Name)
  | comp (seg : Name) (ctor : CtorKwargs) (children : List FieldNode)

/-- `isinstance(field, MULTIPLE_VALUE_TYPES)`: `FieldList` and
`SelectMultipleField` (and their bases). -/
def isMultiValue : FieldKind → Bool
  | .fieldList => true
  | .selectMultiple _ => true
  | _ => false

-- ---------------------------------------------------------------------------
-- Python dict operations (insertion-ordered association lists, unique keys
-- when built from `dictSet`)
-- ---------------------------------------------------------------------------

/-- First-match association-list lookup (`d[k]` / `d.get(k)`). -/
def alookup {κ ν : Type} [DecidableEq κ] : List (κ × ν) → κ → Option ν
  | [], _ => none
  | (k', v) :: rest, k => if k = k' then some v else alookup rest k

/-- `d[k] = v` on a Python dict: overwrite in place (keeping the key's
position) if the key is present, append otherwise. -/
def dictSet {κ ν : Type} [DecidableEq κ] : List (κ × ν) → κ → ν → List (κ × ν)
  | [], k, v => [(k, v)]
  | (k', v') :: rest, k, v =>
    if k' = k then (k, v) :: rest else (k', v') :: dictSet rest k v

/-- `d.update(e)`: set each entry of `e` in order. -/
def dictUpdate {κ ν : Type} [DecidableEq κ] (d e : List (κ × ν)) : List (κ × ν) :=
  e.foldl (fun acc p => dictSet acc p.1 p.2) d

/-- `dict((v, k) for k, v in iteritems(d))`: invert a dict, later
entries winning on duplicate values. -/
def dictInvert {κ ν : Type} [DecidableEq κ] [DecidableEq ν]
    (d : List (κ × ν)) : List (ν × κ) :=
  d.foldl (fun acc p => dictSet acc p.2 p.1) []

/-- `del d[k]` guarded by `if k in d` (removes the key if present). -/
def dictRemove {κ ν : Type} [DecidableEq κ] (d : List (κ × ν)) (k : κ) :
    List (κ × ν) :=
  d.filter (fun p => p.1 != k)

/-- `True` for a dict-typed Python value that is truthy (non-`None` and
nonempty). -/
def dataTruthy {ν : Type} : Option (List (Name × ν)) → Bool
  | none => false
  | some d => !d.isEmpty

-- ---------------------------------------------------------------------------
-- Name manipulation
-- ---------------------------------------------------------------------------

/-- `name.replace('-', '_')`: the parser's flattened destination name. -/
def flatten : Name → Name :=
  List.map (fun c => if c = '-' then '_' else c)

/-- `name.replace('_', '-')`: the hyphenated flag-surface name. -/
def hyphenate : Name → Name :=
  List.map (fun c => if c = '_' then '-' else c)

/-- The full name of a child segment under a (possibly empty) ancestor
path: WTForms joins the enclosing `FormField` name and the inner field
name with the `-` separator. -/
def joinName (pre seg : Name) : Name :=
  match pre with
  | [] => seg
  | _ => pre ++ '-' :: seg

/-- `'%s-%s' % (key[:i - 1], key[i:])` from `_populate_formdata`:
reinsert a hyphen at offset `i` (dropping the character at index
`i - 1`). -/
def reinsert (key : Name) (i : Nat) : Name :=
  key.take (i - 1) ++ '-' :: key.drop i

/-- Apply all recorded hyphen offsets in order
(`for i in hyphens: key = '%s-%s' % (key[:i - 1], key[i:])`). -/
def applyHyphens (hyphens : List Nat) (key : Name) : Name :=
  hyphens.foldl reinsert key

/-- Decimal rendering of a list index (`'%i' % i`). -/
def natName (n : Nat) : Name := (Nat.repr n).toList

-- ---------------------------------------------------------------------------
-- The form-data binder: `_populate_formdata`
-- ---------------------------------------------------------------------------

/-- The indexed expansion `for i, item in enumerate(value)` writing
`'%s-%i' % (key, i)` entries for a `FieldList` field.  Iterating a
string in the source language yields its one-character substrings; the
opaque-object arm is unreachable (the parser produces only strings,
lists and `None`). -/
def fieldListEntries (key : Name) (v : PyVal) : List (Name × PyVal) :=
  match v with
  | .list l => l.enum.map (fun p => (key ++ '-' :: natName p.1, PyVal.str p.2))
  | .str s => s.enum.map (fun p => (key ++ '-' :: natName p.1, PyVal.str [p.2]))
  | .obj => []

mutual

/-- `_populate_formdata`, one field: the entries written (in order) for
the subtree rooted at this field, given the parsed-arguments lookup
`args`, the ancestor path `pre` and the recorded hyphen offsets. -/
def populateNode (args : Name → Option PyVal) (pre : Name) (hyphens : List Nat) :
    FieldNode → List (Name × PyVal)
  | .comp seg _ children =>
    let nm := joinName pre seg
    populateList args nm (hyphens ++ [nm.length + 1]) children
  | .leaf seg kind _ _ =>
    let nm := joinName pre seg
    let key := flatten nm
    match args key with
    | none => []
    | some v =>
      let key := applyHyphens hyphens key
      match kind with
      | .fieldList => fieldListEntries key v
      | _ => [(key, v)]

/-- `_populate_formdata`, the `for field in self` loop. -/
def populateList (args : Name → Option PyVal) (pre : Name) (hyphens : List Nat) :
    List FieldNode → List (Name × PyVal)
  | [] => []
  | f :: rest =>
    populateNode args pre hyphens f ++ populateList args pre hyphens rest

end

mutual

/-- Modelled from the spec's contract for `populate`: the Multidict keys
are the leaves' hyphen-joined hierarchical names taken directly (no
flatten-then-reinsert round trip), with the same lookup and the same
value handling as the source.  Used as the comparison point for the key
reconstruction property. -/
def specPopulateNode (args : Name → Option PyVal) (pre : Name) :
    FieldNode → List (Name × PyVal)
  | .comp seg _ children => specPopulateList args (joinName pre seg) children
  | .leaf seg kind _ _ =>
    let nm := joinName pre seg
    match args (flatten nm) with
    | none => []
    | some v =>
      match kind with
      | .fieldList => fieldListEntries nm v
      | _ => [(nm, v)]

/-- Spec-side `populate` over a field list. -/
def specPopulateList (args : Name → Option PyVal) (pre : Name) :
    List FieldNode → List (Name × PyVal)
  | [] => []
  | f :: rest =>
    specPopulateNode args pre f ++ specPopulateList args pre rest

end

/-- A name segment free of the hierarchical separator. -/
def hyphenFree (s : Name) : Bool := s.all (fun c => c != '-')

mutual

/-- Well-formed field tree: every segment is a nonempty string without
hyphens (segments come from Python attribute names, which are nonempty
identifiers made of letters, digits and underscores). -/
def wfNode : FieldNode → Bool
  | .leaf seg _ _ _ => hyphenFree seg && !seg.isEmpty
  | .comp seg _ children => (hyphenFree seg && !seg.isEmpty) && wfList children

/-- Well-formedness of a list of field nodes. -/
def wfList : List FieldNode → Bool
  | [] => true
  | f :: rest => wfNode f && wfList rest

end

-- ---------------------------------------------------------------------------
-- The default resolver (the middle of the leaf branch of `_configure_parser`)
-- ---------------------------------------------------------------------------

/-- The `elif ctor_data and field.name in ctor_data` fallback of the
default computation. -/
def resolveFromData (fdflt : PyDefault) (data : Option (List (Name × PyDefault)))
    (nm : Name) : PyDefault :=
  if dataTruthy data then
    match data.bind (fun d => alookup d nm) with
    | some v => v
    | none => fdflt
  else fdflt

/-- The default computation of `_configure_parser`: start from
`field.default`; an attribute of the constructor `obj` wins if the
object was supplied and has the attribute; otherwise an entry of the
constructor `data` mapping wins if supplied and present.  (The
constructor-kwargs override is commented out in the source.) -/
def resolveDefault (fdflt : PyDefault) (ctorObj : Option (List (Name × PyDefault)))
    (ctorData : Option (List (Name × PyDefault))) (nm : Name) : PyDefault :=
  match ctorObj with
  | some o =>
    match alookup o nm with
    | some v => v
    | none => resolveFromData fdflt ctorData nm
  | none => resolveFromData fdflt ctorData nm

-- ---------------------------------------------------------------------------
-- Help-text default rendering
-- ---------------------------------------------------------------------------

/-- The `COMMON_DEFAULT_CALLABLES` table, keyed by callable identity:
0 = `datetime.date.today` rendered "today", 1 = `datetime.datetime.today`
rendered "now", 2 = `datetime.time` rendered "now". -/
def COMMON_DEFAULT_CALLABLES : List (Nat × Name) :=
  [(0, "today".toList), (1, "now".toList), (2, "now".toList)]

/-- Whitespace as recognised by `str.split()`. -/
def isSpace (c : Char) : Bool :=
  c = ' ' || c = '\t' || c = '\n' || c = '\r'

/-- `len(value.split())`: the number of maximal whitespace-free runs. -/
def wordCount (s : Name) : Nat :=
  (s.foldl
    (fun st c =>
      if isSpace c then (st.1, false)
      else if st.2 then (st.1, true) else (st.1 + 1, true))
    ((0 : Nat), false)).1

/-- The `quote` convenience function: wrap in double quotes when the
string splits into more than one word. -/
def quote (s : Name) : Name :=
  if wordCount s > 1 then '"' :: s ++ ['"'] else s

/-- The `handle_default` value selection: `None` yields no note; a
callable yields its `__clik_wtf__` tag if it has one, else its
`COMMON_DEFAULT_CALLABLES` entry if it is a key there, else the literal
"dynamic"; any other value is rendered `quote(str(default))`. -/
def defaultHelpVal (common : List (Nat × Name)) : PyDefault → Option Name
  | .pynone => none
  | .value s => some (quote s)
  | .callable id tag =>
    some
      (match tag with
       | some t => t
       | none =>
         match alookup common id with
         | some v => v
         | none => "dynamic".toList)

-- ---------------------------------------------------------------------------
-- The argument surface compiler: `_configure_parser`
-- ---------------------------------------------------------------------------

/-- The compilation errors raised by `_configure_parser` (all are
`FormError` in the source, distinguished by message). -/
inductive CfgError where
  | fieldNameTooShort (name : Name)
  | shortArgAssignedToComposite
  | unsupportedFieldType (typeName : Name)
  deriving DecidableEq

/-- The projection of one `parser.add_argument(*args, **kwargs)` call
that the verified properties concern: the short flag letter (if any),
the long flag, whether the argument was registered with
`action='append'` and `default=[]`, and the "default: ..." help note
(if any). -/
structure AddArg where
  short : Option Char
  long : Name
  isAppend : Bool
  defaultNote : Option Name
  deriving DecidableEq

/-- `short_args.update(value)` for the two sources, static
(`short_arguments`) first, dynamic (`get_short_arguments()`) second,
each skipped when `None`. -/
def mergeShortArgs (stat dyn : Option (List (Char × Name))) : List (Char × Name) :=
  let sa : List (Char × Name) := []
  let sa := match stat with | some v => dictUpdate sa v | none => sa
  match dyn with | some v => dictUpdate sa v | none => sa

/-- The name-to-letter table used for short-argument lookup: merged and
then inverted exactly once at the root; empty for non-root forms. -/
def shortArgsTable (root : Bool) (stat dyn : Option (List (Char × Name))) :
    List (Name × Char) :=
  if root then dictInvert (mergeShortArgs stat dyn) else []

mutual

/-- `_configure_parser`, one field: the name-length check, the short-arg
lookup, the composite short-arg check and recursion, and the leaf
`add_argument` computation. -/
def configureNode (common : List (Nat × Name)) (ctor : CtorKwargs)
    (table : List (Name × Char)) (pre : Name) :
    FieldNode → Except CfgError (List AddArg)
  | .comp seg cctor children =>
    let nm := joinName pre seg
    if nm.length = 1 then .error (.fieldNameTooShort nm)
    else
      match alookup table nm with
      | some _ => .error .shortArgAssignedToComposite
      | none => configureList common cctor [] nm children
  | .leaf seg kind fdflt _ =>
    let nm := joinName pre seg
    if nm.length = 1 then .error (.fieldNameTooShort nm)
    else
      let shortArg := alookup table nm
      let long := '-' :: '-' :: hyphenate nm
      match kind with
      | .fieldList => .ok [⟨shortArg, long, true, none⟩]
      | .selectMultiple _ => .ok [⟨shortArg, long, true, none⟩]
      | .unsupported t => .error (.unsupportedFieldType t)
      | _ =>
        let d := resolveDefault fdflt ctor.obj ctor.data nm
        .ok [⟨shortArg, long, false,
              (defaultHelpVal common d).map (fun v => "default: ".toList ++ v)⟩]

/-- `_configure_parser`, the `for field in self` loop; an error aborts
the whole compile. -/
def configureList (common : List (Nat × Name)) (ctor : CtorKwargs)
    (table : List (Name × Char)) (pre : Name) :
    List FieldNode → Except CfgError (List AddArg)
  | [] => .ok []
  | f :: rest => do
    let a ← configureNode common ctor table pre f
    let b ← configureList common ctor table pre rest
    .ok (a ++ b)

end

/-- `configure_parser`: compile a whole form, computing the
short-argument table from the two class-level sources (only at the
root). -/
def configureForm (common : List (Nat × Name)) (ctor : CtorKwargs)
    (stat dyn : Option (List (Char × Name))) (root : Bool)
    (fields : List FieldNode) : Except CfgError (List AddArg) :=
  configureList common ctor (shortArgsTable root stat dyn) [] fields

-- ---------------------------------------------------------------------------
-- Multidict
-- ---------------------------------------------------------------------------

/-- `Multidict.__getitem__`: a stored nonempty list yields its first
element; every other stored value (including an empty list) is returned
as-is.  `none` models the `KeyError` of a missing key. -/
def mdGetItem (d : List (Name × PyVal)) (k : Name) : Option PyVal :=
  match alookup d k with
  | none => none
  | some v =>
    match v with
    | .list (x :: _) => some (PyVal.str x)
    | _ => some v

/-- `Multidict.getlist`: a stored list is returned whole; a non-list
value is wrapped into a one-element list. -/
def mdGetlist (d : List (Name × PyVal)) (k : Name) : Option (List PyVal) :=
  match alookup d k with
  | none => none
  | some v =>
    match v with
    | .list l => some (l.map PyVal.str)
    | _ => some [v]

/-- Tests whether a `Multidict` plain lookup produced a (string) element
rather than a whole stored value. -/
def isStrResult : Option PyVal → Bool
  | some (.str _) => true
  | _ => false

-- ---------------------------------------------------------------------------
-- Binding: `bind_args` / `_bind_formdata`
-- ---------------------------------------------------------------------------

mutual

/-- Re-initialisation of the validation state at one node: rebinding
recreates the fields, so recorded errors are cleared (structure,
segments, kinds and defaults are preserved). -/
def clearErrorsNode : FieldNode → FieldNode
  | .leaf seg kind d _ => .leaf seg kind d []
  | .comp seg ctor children => .comp seg ctor (clearErrorsList children)

/-- `clearErrorsNode` over a field list. -/
def clearErrorsList : List FieldNode → List FieldNode
  | [] => []
  | f :: rest => clearErrorsNode f :: clearErrorsList rest

end

/-- The always-present sentinel entry `Multidict({'_': object()})`. -/
def sentinel : List (Name × PyVal) := [("_".toList, PyVal.obj)]

/-- The Multidict produced by `bind_args`: the sentinel entry followed
by every `_populate_formdata` write, applied with Python dict `setitem`
semantics. -/
def buildFormdata (fields : List FieldNode) (args : Name → Option PyVal) :
    List (Name × PyVal) :=
  (populateList args [] [] fields).foldl (fun d e => dictSet d e.1 e.2) sentinel

/-- The mutable state of a bound form tree: the (re-creatable) field
tree, the recorded constructor kwargs, the stored parsed-arguments
reference (`self._args`) and the form data the validation engine was
last initialised with. -/
structure FormState where
  fields : List FieldNode
  ctor : CtorKwargs
  args : Option (Name → Option PyVal)
  formdata : Option (List (Name × PyVal))

/-- `bind_args`: build a fresh sentinel-seeded Multidict from the parsed
arguments via `_populate_formdata`, then `_bind_formdata`: store the
parsed-arguments reference and re-initialise every node (recreating the
fields, hence clearing recorded errors) with that Multidict. -/
def bindArgs (s : FormState) (args : Name → Option PyVal) : FormState :=
  let fd := buildFormdata s.fields args
  { fields := clearErrorsList s.fields
    ctor := s.ctor
    args := some args
    formdata := some fd }

-- ---------------------------------------------------------------------------
-- The error reporter: `print_errors`
-- ---------------------------------------------------------------------------

/-- `error[0].lower() + error[1:]` (validation messages are nonempty in
the source; the empty case is unreachable). -/
def lowerFirst : Name → Name
  | [] => []
  | c :: cs => c.toLower :: cs

/-- String repr with single quotes, used by the list rendering of
`str`. -/
def strReprQ (s : Name) : Name :=
  Char.ofNat 39 :: s ++ [Char.ofNat 39]

/-- `'%s' % value`: Python `str` of a parsed-argument value.  `None`
prints "None"; a list of strings prints with bracketed single-quoted
items.  The opaque-object arm is never looked up by the reporter. -/
def pyStr : Option PyVal → Name
  | none => "None".toList
  | some (.str s) => s
  | some (.list l) => '[' :: (", ".toList).intercalate (l.map strReprQ) ++ [']']
  | some .obj => "object".toList

/-- One reported line for one recorded error on a leaf field with full
name `nm`: the hyphenated name, then (for single-valued fields only) the
echoed original input looked up from the parsed arguments by the
flattened name, then the message with its first letter lower-cased. -/
def errorLine (args : Name → Option PyVal) (nm : Name) (kind : FieldKind)
    (err : Name) : Name :=
  let msg := hyphenate nm ++ ": ".toList
  let msg :=
    if isMultiValue kind then msg
    else msg ++ pyStr (args (flatten nm)) ++ ": ".toList
  msg ++ lowerFirst err

mutual

/-- `print_errors`, one field: recurse into subforms, emit one line per
recorded error on leaves. -/
def printErrorsNode (args : Name → Option PyVal) (pre : Name) :
    FieldNode → List Name
  | .comp seg _ children => printErrorsList args (joinName pre seg) children
  | .leaf seg kind _ errs => errs.map (errorLine args (joinName pre seg) kind)

/-- `print_errors`, the `for field in self` loop. -/
def printErrorsList (args : Name → Option PyVal) (pre : Name) :
    List FieldNode → List Name
  | [] => []
  | f :: rest => printErrorsNode args pre f ++ printErrorsList args pre rest

end

mutual

/-- The depth-first, declaration-order sequence of leaf fields of a
subtree, each with its full name, kind and recorded errors. -/
def leavesNode (pre : Name) : FieldNode → List (Name × FieldKind × List Name)
  | .comp seg _ children => leavesList (joinName pre seg) children
  | .leaf seg kind _ errs => [(joinName pre seg, kind, errs)]

/-- `leavesNode` over a field list. -/
def leavesList (pre : Name) : List FieldNode → List (Name × FieldKind × List Name)
  | [] => []
  | f :: rest => leavesNode pre f ++ leavesList pre rest

end

-- ---------------------------------------------------------------------------
-- Construction: `Form.__init__`
-- ---------------------------------------------------------------------------

/-- The observable outcome of `Form.__init__`: the recorded
`_clik_constructor_kwargs`, the form data handed to the base
initialiser (always absent: a caller-supplied `formdata` keyword is
deleted first), and the initial `self._args`. -/
structure InitResult where
  record : CtorKwargs
  superFormdata : Option (List (Name × PyVal))
  args : Option (Name → Option PyVal)

/-- `Form.__init__(obj, prefix, meta, data, **kwargs)`. -/
def formInit (obj : Option (List (Name × PyDefault))) (pfx : Name)
    (meta : Option Name) (data : Option (List (Name × PyDefault)))
    (kwargs : List (Name × PyVal)) : InitResult :=
  let kw := dictRemove kwargs "formdata".toList
  { record := ⟨data, kw, meta, obj, pfx⟩
    superFormdata := none
    args := none }

-- ---------------------------------------------------------------------------
-- Predicates used by the compilation theorems
-- ---------------------------------------------------------------------------

mutual

/-- Every leaf field of the subtree has a supported type. -/
def allSupportedNode : FieldNode → Bool
  | .leaf _ kind _ _ =>
    match kind with
    | .unsupported _ => false
    | _ => true
  | .comp _ _ children => allSupportedList children

/-- `allSupportedNode` over a field list. -/
def allSupportedList : List FieldNode → Bool
  | [] => true
  | f :: rest => allSupportedNode f && allSupportedList rest

end

mutual

/-- Some field of the subtree (leaf or composite) has a full name of
length exactly one. -/
def hasLen1Node (pre : Name) : FieldNode → Bool
  | .leaf seg _ _ _ => (joinName pre seg).length = 1
  | .comp seg _ children =>
    (joinName pre seg).length = 1 || hasLen1List (joinName pre seg) children

/-- `hasLen1Node` over a field list. -/
def hasLen1List (pre : Name) : List FieldNode → Bool
  | [] => false
  | f :: rest => hasLen1Node pre f || hasLen1List pre rest

end

/-- A Python dict rendered as an association list has pairwise-distinct
keys. -/
def keysNodup {κ ν : Type} [DecidableEq κ] : List (κ × ν) → Bool
  | [] => true
  | (k, _) :: rest => !(alookup rest k).isSome && keysNodup rest

-- ---------------------------------------------------------------------------
-- Concrete fixtures used by witnesses and counterexamples
-- ---------------------------------------------------------------------------

/-- Constructor kwargs of a form created with all defaults. -/
def exCtor : CtorKwargs := ⟨none, [], none, none, []⟩

/-- The three-level composite tree of the nested-naming example: a root
`FormField` `xxx` wrapping subforms `aaa` and `b_bb`, each holding a
leaf `value`. -/
def exTree : List FieldNode :=
  [ .comp "xxx".toList exCtor
      [ .comp "aaa".toList exCtor [ .leaf "value".toList .primitive .pynone [] ]
      , .comp "b_bb".toList exCtor [ .leaf "value".toList .primitive .pynone [] ] ] ]

/-- Parsed arguments for the nested-naming example: flags
`--xxx-aaa-value xa` and `--xxx-b-bb-value xb`. -/
def exArgs : Name → Option PyVal := fun k =>
  if k = "xxx_aaa_value".toList then some (.str "xa".toList)
  else if k = "xxx_b_bb_value".toList then some (.str "xb".toList)
  else none

/-- The static short-argument table of the spec's merge example
(`short_arguments = dict(a='alpha', b='bravo', c='echo')`). -/
def statEx : List (Char × Name) :=
  [('a', "alpha".toList), ('b', "bravo".toList), ('c', "echo".toList)]

/-- The dynamic short-argument override of the spec's merge example
(`get_short_arguments()` returning `dict(c='charlie', d='delta')`). -/
def dynEx : List (Char × Name) :=
  [('c', "charlie".toList), ('d', "delta".toList)]

-- ===========================================================================
-- Lemmas: association lists
-- ===========================================================================

theorem alookup_append {κ ν : Type} [DecidableEq κ] (a b : List (κ × ν)) (k : κ) :
    alookup (a ++ b) k =
      match alookup a k with
      | some v => some v
      | none => alookup b k := by
  induction a with
  | nil => simp [alookup]
  | cons p rest ih =>
    obtain ⟨k', v'⟩ := p
    by_cases h : k = k' <;> simp [alookup, h, ih]

theorem alookup_dictSet {κ ν : Type} [DecidableEq κ] (d : List (κ × ν))
    (k k' : κ) (v : ν) :
    alookup (dictSet d k v) k' = if k' = k then some v else alookup d k' := by
  induction d with
  | nil => simp [dictSet, alookup]
  | cons p rest ih =>
    obtain ⟨k0, v0⟩ := p
    by_cases h : k0 = k
    · subst h
      by_cases h2 : k' = k0 <;> simp [dictSet, alookup, h2]
    · by_cases h2 : k' = k0
      · subst h2
        have hk : ¬ k' = k := fun hh => h (hh ▸ rfl)
        simp [dictSet, alookup, h, hk]
      · simp [dictSet, alookup, h, h2, ih]

theorem alookup_dictUpdate_none {κ ν : Type} [DecidableEq κ] (e : List (κ × ν))
    (d : List (κ × ν)) (k : κ) (h : alookup e k = none) :
    alookup (dictUpdate d e) k = alookup d k := by
  induction e generalizing d with
  | nil => rfl
  | cons p rest ih =>
    obtain ⟨k0, v0⟩ := p
    have hk : ¬ k = k0 := by
      intro hh
      simp [alookup, hh] at h
    have hrest : alookup rest k = none := by
      simpa [alookup, hk] using h
    have hstep : dictUpdate d ((k0, v0) :: rest) = dictUpdate (dictSet d k0 v0) rest := rfl
    rw [hstep, ih _ hrest, alookup_dictSet]
    simp [hk]

theorem alookup_dictUpdate_some {κ ν : Type} [DecidableEq κ] (e : List (κ × ν))
    (d : List (κ × ν)) (k : κ) (v : ν) (hnd : keysNodup e = true)
    (h : alookup e k = some v) :
    alookup (dictUpdate d e) k = some v := by
  induction e generalizing d with
  | nil => simp [alookup] at h
  | cons p rest ih =>
    obtain ⟨k0, v0⟩ := p
    have hnd' : (alookup rest k0).isSome = false ∧ keysNodup rest = true := by
      simpa [keysNodup, Bool.and_eq_true] using hnd
    have hstep : dictUpdate d ((k0, v0) :: rest) = dictUpdate (dictSet d k0 v0) rest := rfl
    by_cases hk : k = k0
    · subst hk
      have hv : v0 = v := by simpa [alookup] using h
      subst hv
      have hrest : alookup rest k = none := by
        cases hh : alookup rest k with
        | none => rfl
        | some w =>
          rw [hh] at hnd'
          simp at hnd'
      rw [hstep, alookup_dictUpdate_none _ _ _ hrest, alookup_dictSet]
      simp
    · have hrest : alookup rest k = some v := by
        simpa [alookup, hk] using h
      rw [hstep]
      exact ih (dictSet d k0 v0) hnd'.2 hrest

theorem alookup_dictRemove_self {κ ν : Type} [DecidableEq κ]
    (d : List (κ × ν)) (k : κ) :
    alookup (dictRemove d k) k = none := by
  unfold dictRemove
  induction d with
  | nil => rfl
  | cons p rest ih =>
    obtain ⟨k0, v0⟩ := p
    by_cases h : k0 = k
    · simpa [List.filter_cons, h] using ih
    · have hk : ¬ k = k0 := fun hh => h (hh ▸ rfl)
      simpa [List.filter_cons, h, alookup, hk] using ih

theorem alookup_dictRemove_other {κ ν : Type} [DecidableEq κ]
    (d : List (κ × ν)) (k k' : κ) (h : k' ≠ k) :
    alookup (dictRemove d k) k' = alookup d k' := by
  unfold dictRemove
  induction d with
  | nil => rfl
  | cons p rest ih =>
    obtain ⟨k0, v0⟩ := p
    by_cases h0 : k0 = k
    · subst h0
      simpa [List.filter_cons, alookup, h] using ih
    · by_cases h1 : k' = k0 <;>
        simp [List.filter_cons, h0, alookup, h1, ih]

-- ===========================================================================
-- Lemmas: name manipulation and hyphen reinsertion
-- ===========================================================================

theorem flatten_append (a b : Name) : flatten (a ++ b) = flatten a ++ flatten b :=
  List.map_append _ a b

theorem flatten_hyphenFree (s : Name) (h : hyphenFree s = true) : flatten s = s := by
  induction s with
  | nil => rfl
  | cons c cs ih =>
    have h' : ¬ c = '-' ∧ hyphenFree cs = true := by
      simpa [hyphenFree, List.all_cons, Bool.and_eq_true] using h
    have hstep : flatten (c :: cs) = (if c = '-' then '_' else c) :: flatten cs := rfl
    rw [hstep, if_neg h'.1, ih h'.2]

theorem flatten_sep_cons (pre seg : Name) :
    flatten (pre ++ '-' :: seg) = flatten pre ++ '_' :: flatten seg := by
  rw [flatten_append]
  simp [flatten]

theorem joinName_ne (pre seg : Name) (h : pre ≠ []) :
    joinName pre seg = pre ++ '-' :: seg := by
  cases pre with
  | nil => exact absurd rfl h
  | cons a l => rfl

theorem reinsert_boundary (a tail : Name) (c : Char) :
    reinsert (a ++ c :: tail) (a.length + 1) = a ++ '-' :: tail := by
  unfold reinsert
  have h1 : (a ++ c :: tail).take (a.length + 1 - 1) = a := by
    simp only [Nat.add_sub_cancel]
    exact List.take_left a (c :: tail)
  have h2 : (a ++ c :: tail).drop (a.length + 1) = tail := by
    have hsplit : a ++ c :: tail = (a ++ [c]) ++ tail := by simp
    have hlen : (a ++ [c]).length = a.length + 1 := by simp
    rw [hsplit, ← hlen, List.drop_left]
  rw [h1, h2]

theorem applyHyphens_append (hy : List Nat) (n : Nat) (key : Name) :
    applyHyphens (hy ++ [n]) key = reinsert (applyHyphens hy key) n := by
  simp [applyHyphens, List.foldl_append]

/-- The binder's invariant at a node with ancestor path name `pre` and
recorded offsets `hyphens`: applying the offsets to a flattened key that
extends `pre` restores every separator inside `pre` and the one right
after it. -/
def keyInv (pre : Name) (hyphens : List Nat) : Prop :=
  ∀ tail : Name,
    applyHyphens hyphens (flatten pre ++ '_' :: tail) = pre ++ '-' :: tail

/-- The invariant of `_populate_formdata`: at the root there is no
ancestor and no offset; below the root, `keyInv` holds. -/
def popInv (pre : Name) (hyphens : List Nat) : Prop :=
  (pre = [] ∧ hyphens = []) ∨ (pre ≠ [] ∧ keyInv pre hyphens)

theorem popInv_leaf_key (pre : Name) (hy : List Nat) (seg : Name)
    (hinv : popInv pre hy) (hseg : hyphenFree seg = true) :
    applyHyphens hy (flatten (joinName pre seg)) = joinName pre seg := by
  rcases hinv with ⟨hp, hh⟩ | ⟨hp, hk⟩
  · subst hp; subst hh
    simp [joinName, applyHyphens, flatten_hyphenFree seg hseg]
  · rw [joinName_ne pre seg hp, flatten_sep_cons, flatten_hyphenFree seg hseg]
    exact hk seg

theorem popInv_step (pre : Name) (hy : List Nat) (seg : Name)
    (hinv : popInv pre hy) (hseg : hyphenFree seg = true) (hne : seg ≠ []) :
    popInv (joinName pre seg) (hy ++ [(joinName pre seg).length + 1]) := by
  right
  rcases hinv with ⟨hp, hh⟩ | ⟨hp, hk⟩
  · subst hp; subst hh
    refine ⟨by simpa [joinName] using hne, ?_⟩
    intro tail
    simp only [joinName]
    rw [applyHyphens_append]
    simp only [applyHyphens, List.foldl_nil]
    rw [flatten_hyphenFree seg hseg]
    exact reinsert_boundary seg tail '_'
  · have hj : joinName pre seg = pre ++ '-' :: seg := joinName_ne pre seg hp
    refine ⟨by simp [hj], ?_⟩
    intro tail
    rw [hj, applyHyphens_append, flatten_sep_cons, flatten_hyphenFree seg hseg]
    have hassoc : flatten pre ++ '_' :: seg ++ '_' :: tail =
        flatten pre ++ '_' :: (seg ++ '_' :: tail) := by simp
    rw [hassoc, hk (seg ++ '_' :: tail)]
    have hassoc2 : pre ++ '-' :: (seg ++ '_' :: tail) =
        (pre ++ '-' :: seg) ++ '_' :: tail := by simp
    rw [hassoc2]
    have hlen : (pre ++ '-' :: seg).length = (pre ++ '-' :: seg).length := rfl
    exact reinsert_boundary (pre ++ '-' :: seg) tail '_'

-- ===========================================================================
-- Lemmas: the binder reconstructs hierarchical keys
-- ===========================================================================

mutual

theorem populateNode_eq_spec (args : Name → Option PyVal) (pre : Name)
    (hy : List Nat) (node : FieldNode) (hinv : popInv pre hy)
    (hwf : wfNode node = true) :
    populateNode args pre hy node = specPopulateNode args pre node := by
  cases node with
  | leaf seg kind d errs =>
    have hseg : hyphenFree seg = true := by
      simp [wfNode, Bool.and_eq_true] at hwf
      exact hwf.1
    simp only [populateNode, specPopulateNode]
    cases hargs : args (flatten (joinName pre seg)) with
    | none => rfl
    | some v =>
      rw [popInv_leaf_key pre hy seg hinv hseg]
  | comp seg ctor children =>
    have hwf' : (hyphenFree seg = true ∧ seg ≠ []) ∧ wfList children = true := by
      simpa [wfNode, Bool.and_eq_true, List.isEmpty_iff] using hwf
    simp only [populateNode, specPopulateNode]
    exact populateList_eq_spec args (joinName pre seg) _ children
      (popInv_step pre hy seg hinv hwf'.1.1 hwf'.1.2) hwf'.2

theorem populateList_eq_spec (args : Name → Option PyVal) (pre : Name)
    (hy : List Nat) (fields : List FieldNode) (hinv : popInv pre hy)
    (hwf : wfList fields = true) :
    populateList args pre hy fields = specPopulateList args pre fields := by
  cases fields with
  | nil => rfl
  | cons f rest =>
    have hwf' : wfNode f = true ∧ wfList rest = true := by
      simpa [wfList, Bool.and_eq_true] using hwf
    simp only [populateList, specPopulateList]
    rw [populateNode_eq_spec args pre hy f hinv hwf'.1,
        populateList_eq_spec args pre hy rest hinv hwf'.2]

end

-- ===========================================================================
-- Claim theorems
-- ===========================================================================

/-- C1: for every well-formed field tree (segments are nonempty,
hyphen-free attribute names), `_populate_formdata` — which reads the
parser's flattened destination name and reinserts the hierarchical
separator at each recorded ancestor offset (ancestor name length + 1) —
writes exactly the entries of the specification-side populate whose keys
are the leaves' original hyphen-joined hierarchical names, with
underscores internal to a segment preserved. -/
theorem c1_populate_reconstructs_keys (args : Name → Option PyVal)
    (fields : List FieldNode) (hwf : wfList fields = true) :
    populateList args [] [] fields = specPopulateList args [] fields :=
  populateList_eq_spec args [] [] fields (Or.inl ⟨rfl, rfl⟩) hwf

/-- Witness for C1: on the three-level example tree, the flags
`--xxx-aaa-value xa` and `--xxx-b-bb-value xb` produce Multidict keys
`xxx-aaa-value` and `xxx-b_bb-value`. -/
theorem c1_populate_reconstructs_keys_witness :
    wfList exTree = true ∧
    populateList exArgs [] [] exTree = specPopulateList exArgs [] exTree ∧
    populateList exArgs [] [] exTree =
      [("xxx-aaa-value".toList, PyVal.str "xa".toList),
       ("xxx-b_bb-value".toList, PyVal.str "xb".toList)] :=
  ⟨by decide, c1_populate_reconstructs_keys exArgs exTree (by decide), by decide⟩

/-- C2: for a non-multi-valued leaf field, the resolved default follows
the precedence chain highest-first: an attribute of the constructor
object if the object was supplied and has it; otherwise an entry of the
constructor seed mapping if supplied and present; otherwise the field's
own configured default. -/
theorem c2_default_precedence (fd : PyDefault)
    (obj data : Option (List (Name × PyDefault))) (nm : Name) :
    (∀ o v, obj = some o → alookup o nm = some v →
        resolveDefault fd obj data nm = v)
  ∧ (∀ d v, (obj = none ∨ ∃ o, obj = some o ∧ alookup o nm = none) →
        data = some d → alookup d nm = some v →
        resolveDefault fd obj data nm = v)
  ∧ ((obj = none ∨ ∃ o, obj = some o ∧ alookup o nm = none) →
     (data = none ∨ ∃ d, data = some d ∧ alookup d nm = none) →
        resolveDefault fd obj data nm = fd) := by
  refine ⟨?_, ?_, ?_⟩
  · intro o v h1 h2
    subst h1
    simp [resolveDefault, h2]
  · intro d v hobj hdata hlook
    subst hdata
    have hne : d.isEmpty = false := by
      cases d with
      | nil => simp [alookup] at hlook
      | cons _ _ => rfl
    have hdata_res : resolveFromData fd (some d) nm = v := by
      simp [resolveFromData, dataTruthy, hne, hlook]
    rcases hobj with h | ⟨o, ho, hlo⟩
    · subst h
      simpa [resolveDefault] using hdata_res
    · subst ho
      simpa [resolveDefault, hlo] using hdata_res
  · intro hobj hdata
    have hdata_res : resolveFromData fd data nm = fd := by
      rcases hdata with h | ⟨d, hd, hld⟩
      · subst h
        simp [resolveFromData, dataTruthy]
      · subst hd
        simp [resolveFromData, dataTruthy, hld]
    rcases hobj with h | ⟨o, ho, hlo⟩
    · subst h
      simpa [resolveDefault] using hdata_res
    · subst ho
      simpa [resolveDefault, hlo] using hdata_res

/-- Witness for C2: field `value` with configured default "quux",
object attribute "foo", seed entry "baz": object wins; without the
object the seed wins; with neither the configured default stands. -/
theorem c2_default_precedence_witness :
    resolveDefault (.value "quux".toList)
        (some [("value".toList, .value "foo".toList)])
        (some [("value".toList, .value "baz".toList)]) "value".toList =
      .value "foo".toList ∧
    resolveDefault (.value "quux".toList) none
        (some [("value".toList, .value "baz".toList)]) "value".toList =
      .value "baz".toList ∧
    resolveDefault (.value "quux".toList) none none "value".toList =
      .value "quux".toList :=
  ⟨(c2_default_precedence _ _ _ _).1 _ _ rfl (by decide),
   (c2_default_precedence _ _ _ _).2.1 _ _ (Or.inl rfl) rfl (by decide),
   (c2_default_precedence _ _ _ _).2.2 (Or.inl rfl) (Or.inl rfl)⟩

mutual

theorem configureNode_empty_table_no_short (common : List (Nat × Name))
    (ctor : CtorKwargs) (pre : Name) (node : FieldNode) (l : List AddArg)
    (h : configureNode common ctor [] pre node = .ok l) :
    ∀ a ∈ l, a.short = none := by
  cases node with
  | comp seg cctor children =>
    simp only [configureNode] at h
    split at h
    · cases h
    · have halo : alookup ([] : List (Name × Char)) (joinName pre seg) = none := rfl
      rw [halo] at h
      exact configureList_empty_table_no_short common cctor (joinName pre seg)
        children l h
  | leaf seg kind fdflt errs =>
    simp only [configureNode] at h
    split at h
    · cases h
    · have halo : alookup ([] : List (Name × Char)) (joinName pre seg) = none := rfl
      rw [halo] at h
      cases kind <;> simp_all <;> subst h <;> intro a ha <;> simp_all

theorem configureList_empty_table_no_short (common : List (Nat × Name))
    (ctor : CtorKwargs) (pre : Name) (fields : List FieldNode) (l : List AddArg)
    (h : configureList common ctor [] pre fields = .ok l) :
    ∀ a ∈ l, a.short = none := by
  cases fields with
  | nil =>
    simp only [configureList] at h
    cases h
    intro a ha
    cases ha
  | cons f rest =>
    simp only [configureList, bind, Except.bind] at h
    cases hnode : configureNode common ctor [] pre f with
    | error e => rw [hnode] at h; cases h
    | ok a =>
      rw [hnode] at h
      cases hrest : configureList common ctor [] pre rest with
      | error e => rw [hrest] at h; cases h
      | ok b =>
        rw [hrest] at h
        cases h
        intro x hx
        rcases List.mem_append.mp hx with hxa | hxb
        · exact configureNode_empty_table_no_short common ctor pre f a hnode x hxa
        · exact configureList_empty_table_no_short common ctor pre rest b hrest x hxb

end

/-- C3: the short-argument table is merged static-then-dynamic (the
dynamic source winning on a letter collision), inverted exactly once to
a name-to-letter mapping, and computed only at the root: a non-root
compile uses an empty table and assigns no short argument to any
emitted argument. -/
theorem c3_short_arguments (stat dyn : List (Char × Name)) :
    (∀ c n, keysNodup dyn = true → alookup dyn c = some n →
        alookup (mergeShortArgs (some stat) (some dyn)) c = some n)
  ∧ (∀ c, alookup dyn c = none →
        alookup (mergeShortArgs (some stat) (some dyn)) c =
          alookup (mergeShortArgs (some stat) none) c)
  ∧ (∀ s d : Option (List (Char × Name)),
        shortArgsTable true s d = dictInvert (mergeShortArgs s d))
  ∧ (∀ s d : Option (List (Char × Name)), shortArgsTable false s d = [])
  ∧ (∀ (common : List (Nat × Name)) (ctor : CtorKwargs)
        (s d : Option (List (Char × Name))) (fields : List FieldNode)
        (l : List AddArg),
        configureForm common ctor s d false fields = .ok l →
        ∀ a ∈ l, a.short = none) := by
  refine ⟨?_, ?_, fun _ _ => rfl, fun _ _ => rfl, ?_⟩
  · intro c n hnd hl
    exact alookup_dictUpdate_some dyn _ c n hnd hl
  · intro c hl
    exact alookup_dictUpdate_none dyn _ c hl
  · intro common ctor s d fields l h
    exact configureList_empty_table_no_short common ctor [] fields l h

/-- Witness for C3: merging `a→alpha, b→bravo, c→echo` with the dynamic
override `c→charlie, d→delta` lets the dynamic entry win on `c`, and the
inverted table maps each field name to its letter. -/
theorem c3_short_arguments_witness :
    keysNodup dynEx = true ∧
    alookup dynEx 'c' = some "charlie".toList ∧
    alookup (mergeShortArgs (some statEx) (some dynEx)) 'c' =
      some "charlie".toList ∧
    alookup (shortArgsTable true (some statEx) (some dynEx)) "alpha".toList =
      some 'a' ∧
    alookup (shortArgsTable true (some statEx) (some dynEx)) "bravo".toList =
      some 'b' ∧
    alookup (shortArgsTable true (some statEx) (some dynEx)) "charlie".toList =
      some 'c' ∧
    alookup (shortArgsTable true (some statEx) (some dynEx)) "delta".toList =
      some 'd' ∧
    alookup (shortArgsTable true (some statEx) (some dynEx)) "echo".toList =
      none :=
  ⟨by decide, by decide,
   (c3_short_arguments statEx dynEx).1 'c' "charlie".toList (by decide) (by decide),
   by decide, by decide, by decide, by decide, by decide⟩

mutual

theorem configureNode_ok_of_no_len1 (common : List (Nat × Name))
    (ctor : CtorKwargs) (pre : Name) (node : FieldNode)
    (hsupp : allSupportedNode node = true)
    (hlen : hasLen1Node pre node = false) :
    ∃ l, configureNode common ctor [] pre node = .ok l := by
  cases node with
  | comp seg cctor children =>
    have hlen' : ¬ (joinName pre seg).length = 1 ∧
        hasLen1List (joinName pre seg) children = false := by
      simpa [hasLen1Node, Bool.or_eq_false_iff] using hlen
    have hsupp' : allSupportedList children = true := by
      simpa [allSupportedNode] using hsupp
    obtain ⟨l, hl⟩ := configureList_ok_of_no_len1 common cctor (joinName pre seg)
      children hsupp' hlen'.2
    refine ⟨l, ?_⟩
    simp only [configureNode, if_neg hlen'.1]
    exact hl
  | leaf seg kind fdflt errs =>
    have hlen' : ¬ (joinName pre seg).length = 1 := by
      simpa [hasLen1Node] using hlen
    cases kind with
    | unsupported t => simp [allSupportedNode] at hsupp
    | primitive =>
      exact ⟨_, by simp only [configureNode, if_neg hlen']; rfl⟩
    | select c =>
      exact ⟨_, by simp only [configureNode, if_neg hlen']; rfl⟩
    | selectMultiple c =>
      exact ⟨_, by simp only [configureNode, if_neg hlen']; rfl⟩
    | fieldList =>
      exact ⟨_, by simp only [configureNode, if_neg hlen']; rfl⟩

theorem configureList_ok_of_no_len1 (common : List (Nat × Name))
    (ctor : CtorKwargs) (pre : Name) (fields : List FieldNode)
    (hsupp : allSupportedList fields = true)
    (hlen : hasLen1List pre fields = false) :
    ∃ l, configureList common ctor [] pre fields = .ok l := by
  cases fields with
  | nil => exact ⟨[], rfl⟩
  | cons f rest =>
    have hsupp' : allSupportedNode f = true ∧ allSupportedList rest = true := by
      simpa [allSupportedList, Bool.and_eq_true] using hsupp
    have hlen' : hasLen1Node pre f = false ∧ hasLen1List pre rest = false := by
      simpa [hasLen1List, Bool.or_eq_false_iff] using hlen
    obtain ⟨a, ha⟩ := configureNode_ok_of_no_len1 common ctor pre f
      hsupp'.1 hlen'.1
    obtain ⟨b, hb⟩ := configureList_ok_of_no_len1 common ctor pre rest
      hsupp'.2 hlen'.2
    exact ⟨a ++ b, by simp only [configureList, bind, Except.bind, ha, hb]⟩

end

mutual

theorem configureNode_err_of_len1 (common : List (Nat × Name))
    (ctor : CtorKwargs) (pre : Name) (node : FieldNode)
    (hsupp : allSupportedNode node = true)
    (hlen : hasLen1Node pre node = true) :
    ∃ nm, configureNode common ctor [] pre node =
        .error (.fieldNameTooShort nm) ∧ nm.length = 1 := by
  cases node with
  | comp seg cctor children =>
    by_cases hl : (joinName pre seg).length = 1
    · exact ⟨joinName pre seg, by simp only [configureNode, if_pos hl], hl⟩
    · have hlen' : hasLen1List (joinName pre seg) children = true := by
        simpa [hasLen1Node, hl] using hlen
      have hsupp' : allSupportedList children = true := by
        simpa [allSupportedNode] using hsupp
      obtain ⟨nm, hnm, h1⟩ := configureList_err_of_len1 common cctor
        (joinName pre seg) children hsupp' hlen'
      refine ⟨nm, ?_, h1⟩
      simp only [configureNode, if_neg hl]
      exact hnm
  | leaf seg kind fdflt errs =>
    have hl : (joinName pre seg).length = 1 := by
      simpa [hasLen1Node] using hlen
    exact ⟨joinName pre seg, by simp only [configureNode, if_pos hl], hl⟩

theorem configureList_err_of_len1 (common : List (Nat × Name))
    (ctor : CtorKwargs) (pre : Name) (fields : List FieldNode)
    (hsupp : allSupportedList fields = true)
    (hlen : hasLen1List pre fields = true) :
    ∃ nm, configureList common ctor [] pre fields =
        .error (.fieldNameTooShort nm) ∧ nm.length = 1 := by
  cases fields with
  | nil => simp [hasLen1List] at hlen
  | cons f rest =>
    have hsupp' : allSupportedNode f = true ∧ allSupportedList rest = true := by
      simpa [allSupportedList, Bool.and_eq_true] using hsupp
    by_cases hf : hasLen1Node pre f = true
    · obtain ⟨nm, hnm, h1⟩ := configureNode_err_of_len1 common ctor pre f
        hsupp'.1 hf
      exact ⟨nm, by simp only [configureList, bind, Except.bind, hnm], h1⟩
    · have hrest : hasLen1List pre rest = true := by
        rcases (Bool.or_eq_true _ _).mp (by simpa [hasLen1List] using hlen) with h | h
        · exact absurd h hf
        · exact h
      obtain ⟨a, ha⟩ := configureNode_ok_of_no_len1 common ctor pre f
        hsupp'.1 (by simpa using hf)
      obtain ⟨nm, hnm, h1⟩ := configureList_err_of_len1 common ctor pre rest
        hsupp'.2 hrest
      exact ⟨nm, by simp only [configureList, bind, Except.bind, ha, hnm], h1⟩

end

/-- C4 counterexample: the source checks `len(field.name) == 1` only, so
a zero-length field name does not raise `FieldNameTooShort`: compiling a
single leaf whose name is the empty string succeeds, although the empty
name is shorter than two characters.  (Attribute names in the host
language are nonempty, so this divergence concerns only the unreachable
zero-length case.) -/
theorem c4_counterexample :
    ([] : Name).length = 0 ∧
    configureForm COMMON_DEFAULT_CALLABLES exCtor none none true
        [.leaf [] .primitive .pynone []] =
      .ok [⟨none, "--".toList, false, none⟩] :=
  ⟨rfl, rfl⟩

/-- C4 (amended): for every field tree whose leaf types are all
supported, if some leaf or composite field has a full name of length
exactly one, compiling the argument surface fails with the
`FieldNameTooShort` error (zero-length names are not flagged). -/
theorem c4_name_too_short (common : List (Nat × Name)) (ctor : CtorKwargs)
    (fields : List FieldNode)
    (hsupp : allSupportedList fields = true)
    (hlen : hasLen1List [] fields = true) :
    ∃ nm, configureForm common ctor none none true fields =
        .error (.fieldNameTooShort nm) ∧ nm.length = 1 :=
  configureList_err_of_len1 common ctor [] fields hsupp hlen

/-- Witness for C4 (amended): a single-letter field name `a` aborts
compilation with `FieldNameTooShort`. -/
theorem c4_name_too_short_witness :
    allSupportedList [FieldNode.leaf ['a'] .primitive .pynone []] = true ∧
    hasLen1List [] [FieldNode.leaf ['a'] .primitive .pynone []] = true ∧
    ∃ nm, configureForm COMMON_DEFAULT_CALLABLES exCtor none none true
        [FieldNode.leaf ['a'] .primitive .pynone []] =
      .error (.fieldNameTooShort nm) ∧ nm.length = 1 :=
  ⟨by decide, by decide,
   c4_name_too_short COMMON_DEFAULT_CALLABLES exCtor _ (by decide) (by decide)⟩

/-- C5 counterexample: the source checks the attached `__clik_wtf__`
tag *before* the table of well-known callables (`if hasattr(default,
'__clik_wtf__') ... elif default in COMMON_DEFAULT_CALLABLES ...`), not
the other way round: a callable that is a key of the table and also
carries a tag renders its tag, where the claim predicts the table entry
("today"). -/
theorem c5_counterexample :
    alookup COMMON_DEFAULT_CALLABLES 0 = some "today".toList ∧
    defaultHelpVal COMMON_DEFAULT_CALLABLES
        (.callable 0 (some "custom".toList)) = some "custom".toList ∧
    defaultHelpVal COMMON_DEFAULT_CALLABLES
        (.callable 0 (some "custom".toList)) ≠ some "today".toList :=
  ⟨by decide, by decide, by decide⟩

/-- C5 (amended): for a zero-argument callable default, the help-text
rendering first uses the attached human-readable tag if the callable
carries one; otherwise looks the callable up in the table of well-known
callables; otherwise renders the literal marker "dynamic". -/
theorem c5_callable_default_rendering (common : List (Nat × Name)) (id : Nat) :
    (∀ t, defaultHelpVal common (.callable id (some t)) = some t)
  ∧ (∀ v, alookup common id = some v →
        defaultHelpVal common (.callable id none) = some v)
  ∧ (alookup common id = none →
        defaultHelpVal common (.callable id none) = some "dynamic".toList) := by
  refine ⟨fun t => rfl, ?_, ?_⟩
  · intro v h
    simp [defaultHelpVal, h]
  · intro h
    simp [defaultHelpVal, h]

/-- Witness for C5 (amended): an untagged `datetime.date.today` default
renders "today"; an untagged unknown callable renders "dynamic"; a
tagged callable renders its tag. -/
theorem c5_callable_default_rendering_witness :
    defaultHelpVal COMMON_DEFAULT_CALLABLES (.callable 0 none) =
      some "today".toList ∧
    defaultHelpVal COMMON_DEFAULT_CALLABLES (.callable 99 none) =
      some "dynamic".toList ∧
    defaultHelpVal COMMON_DEFAULT_CALLABLES (.callable 99 (some "next week".toList)) =
      some "next week".toList :=
  ⟨(c5_callable_default_rendering COMMON_DEFAULT_CALLABLES 0).2.1 _ (by decide),
   (c5_callable_default_rendering COMMON_DEFAULT_CALLABLES 99).2.2 (by decide),
   (c5_callable_default_rendering COMMON_DEFAULT_CALLABLES 99).1 _⟩

/-- C6 counterexample: for a stored *empty* sequence (which `bind_args`
does produce, e.g. for a `SelectMultipleField` whose flag was never
supplied), plain lookup returns the empty sequence itself — not a first
element of the stored sequence as the claim states for sequence-typed
values. -/
theorem c6_counterexample :
    alookup [("multiple".toList, PyVal.list [])] "multiple".toList =
      some (PyVal.list []) ∧
    mdGetItem [("multiple".toList, PyVal.list [])] "multiple".toList =
      some (PyVal.list []) ∧
    isStrResult
      (mdGetItem [("multiple".toList, PyVal.list [])] "multiple".toList) =
      false :=
  ⟨by decide, by decide, by decide⟩

/-- C6 (amended): plain `Multidict` lookup returns the first element of
the stored value when that value is a *nonempty* sequence and the value
itself otherwise (including the empty-sequence case), while the
dedicated list accessor returns the full stored sequence, wrapping a
non-sequence value into a one-element sequence. -/
theorem c6_multidict (d : List (Name × PyVal)) (k : Name) :
    (∀ x xs, alookup d k = some (.list (x :: xs)) →
        mdGetItem d k = some (.str x))
  ∧ (alookup d k = some (.list []) → mdGetItem d k = some (.list []))
  ∧ (∀ s, alookup d k = some (.str s) → mdGetItem d k = some (.str s))
  ∧ (alookup d k = some .obj → mdGetItem d k = some .obj)
  ∧ (∀ l, alookup d k = some (.list l) →
        mdGetlist d k = some (l.map PyVal.str))
  ∧ (∀ s, alookup d k = some (.str s) → mdGetlist d k = some [.str s])
  ∧ (alookup d k = some .obj → mdGetlist d k = some [PyVal.obj]) := by
  refine ⟨?_, ?_, ?_, ?_, ?_, ?_, ?_⟩ <;> intros <;>
    simp_all [mdGetItem, mdGetlist]

/-- Witness for C6 (amended): a stored two-element list yields its first
element on plain lookup and the whole list from the list accessor; a
stored scalar is wrapped by the list accessor. -/
theorem c6_multidict_witness :
    mdGetItem [("multiple".toList, PyVal.list ["foo".toList, "bar".toList])]
        "multiple".toList = some (PyVal.str "foo".toList) ∧
    mdGetlist [("multiple".toList, PyVal.list ["foo".toList, "bar".toList])]
        "multiple".toList =
      some [PyVal.str "foo".toList, PyVal.str "bar".toList] ∧
    mdGetlist [("all".toList, PyVal.str "baz".toList)] "all".toList =
      some [PyVal.str "baz".toList] :=
  ⟨(c6_multidict _ _).1 "foo".toList ["bar".toList] (by decide),
   (c6_multidict _ _).2.2.2.2.1 ["foo".toList, "bar".toList] (by decide),
   (c6_multidict _ _).2.2.2.2.2.1 "baz".toList (by decide)⟩

/-- C7 counterexample: a `SelectMultipleField` is multi-valued (it is a
member of `MULTIPLE_VALUE_TYPES`), yet `_populate_formdata` expands only
`FieldList` fields into indexed entries: the parsed sequence of a
multi-select field is written as a single whole-list entry under the
plain key, not as `key-0`, `key-1`, … entries. -/
theorem c7_counterexample :
    isMultiValue (.selectMultiple ["foo".toList, "bar".toList]) = true ∧
    populateNode
        (fun k => if k = "multiple".toList
          then some (PyVal.list ["foo".toList, "bar".toList]) else none)
        [] []
        (.leaf "multiple".toList
          (.selectMultiple ["foo".toList, "bar".toList]) .pynone []) =
      [("multiple".toList, PyVal.list ["foo".toList, "bar".toList])] ∧
    populateNode
        (fun k => if k = "multiple".toList
          then some (PyVal.list ["foo".toList, "bar".toList]) else none)
        [] []
        (.leaf "multiple".toList
          (.selectMultiple ["foo".toList, "bar".toList]) .pynone []) ≠
      [("multiple-0".toList, PyVal.str "foo".toList),
       ("multiple-1".toList, PyVal.str "bar".toList)] :=
  ⟨by decide, by decide, by decide⟩

/-- C7 (amended): during populate, an ordered-sequence (`FieldList`)
leaf has each element of its parsed sequence written as an indexed
entry (`key-0`, `key-1`, …); every other leaf (including the
multi-valued multi-select fields) is written as a single entry exactly
when the parsed value is not absent, so a field whose flag yielded no
parsed value produces no entry at all. -/
theorem c7_populate_leaf_entries (args : Name → Option PyVal) (pre : Name)
    (hy : List Nat) (seg : Name) (dflt : PyDefault) (errs : List Name) :
    (∀ kind, args (flatten (joinName pre seg)) = none →
        populateNode args pre hy (.leaf seg kind dflt errs) = [])
  ∧ (∀ v kind, args (flatten (joinName pre seg)) = some v →
        kind ≠ .fieldList →
        populateNode args pre hy (.leaf seg kind dflt errs) =
          [(applyHyphens hy (flatten (joinName pre seg)), v)])
  ∧ (∀ l, args (flatten (joinName pre seg)) = some (.list l) →
        populateNode args pre hy (.leaf seg .fieldList dflt errs) =
          l.enum.map (fun p =>
            (applyHyphens hy (flatten (joinName pre seg)) ++ '-' :: natName p.1,
             PyVal.str p.2))) := by
  refine ⟨?_, ?_, ?_⟩
  · intro kind h
    simp [populateNode, h]
  · intro v kind h hk
    cases kind with
    | fieldList => exact absurd rfl hk
    | primitive => simp [populateNode, h]
    | select c => simp [populateNode, h]
    | selectMultiple c => simp [populateNode, h]
    | unsupported t => simp [populateNode, h]
  · intro l h
    simp [populateNode, h, fieldListEntries]

/-- Witness for C7 (amended): an unset scalar flag writes nothing; a
`FieldList` with two parsed occurrences writes `value-0` and `value-1`
entries. -/
theorem c7_populate_leaf_entries_witness :
    populateNode (fun _ => none) [] []
        (.leaf "all".toList .primitive .pynone []) = [] ∧
    populateNode
        (fun k => if k = "value".toList
          then some (PyVal.list ["x".toList, "y".toList]) else none)
        [] [] (.leaf "value".toList .fieldList .pynone []) =
      [("value-0".toList, PyVal.str "x".toList),
       ("value-1".toList, PyVal.str "y".toList)] := by
  constructor
  · exact (c7_populate_leaf_entries (fun _ => none) [] [] "all".toList
      .pynone []).1 .primitive rfl
  · have h := (c7_populate_leaf_entries
      (fun k => if k = "value".toList
        then some (PyVal.list ["x".toList, "y".toList]) else none)
      [] [] "value".toList .pynone []).2.2
      ["x".toList, "y".toList] (by decide)
    rw [h]
    decide

mutual

theorem clearErrorsNode_idem (node : FieldNode) :
    clearErrorsNode (clearErrorsNode node) = clearErrorsNode node := by
  cases node with
  | leaf seg kind d errs => rfl
  | comp seg ctor children =>
    simp only [clearErrorsNode]
    rw [clearErrorsList_idem children]

theorem clearErrorsList_idem (fields : List FieldNode) :
    clearErrorsList (clearErrorsList fields) = clearErrorsList fields := by
  cases fields with
  | nil => rfl
  | cons f rest =>
    simp only [clearErrorsList]
    rw [clearErrorsNode_idem f, clearErrorsList_idem rest]

end

mutual

theorem populateNode_clearErrors (args : Name → Option PyVal) (pre : Name)
    (hy : List Nat) (node : FieldNode) :
    populateNode args pre hy (clearErrorsNode node) =
      populateNode args pre hy node := by
  cases node with
  | leaf seg kind d errs => rfl
  | comp seg ctor children =>
    simp only [clearErrorsNode, populateNode]
    exact populateList_clearErrors args _ _ children

theorem populateList_clearErrors (args : Name → Option PyVal) (pre : Name)
    (hy : List Nat) (fields : List FieldNode) :
    populateList args pre hy (clearErrorsList fields) =
      populateList args pre hy fields := by
  cases fields with
  | nil => rfl
  | cons f rest =>
    simp only [clearErrorsList, populateList]
    rw [populateNode_clearErrors args pre hy f,
        populateList_clearErrors args pre hy rest]

end

theorem buildFormdata_clearErrors (fields : List FieldNode)
    (args : Name → Option PyVal) :
    buildFormdata (clearErrorsList fields) args = buildFormdata fields args := by
  unfold buildFormdata
  rw [populateList_clearErrors]

/-- C8: binding is idempotent: running `bind_args` twice with the same
parsed-arguments input leaves the form state — the re-initialised field
tree, the stored parsed-arguments reference and the produced Multidict
contents — identical to running it once (each bind rebuilds everything
from the immutable declaration and constructor record). -/
theorem c8_bind_idempotent (s : FormState) (args : Name → Option PyVal) :
    bindArgs (bindArgs s args) args = bindArgs s args := by
  simp only [bindArgs]
  rw [clearErrorsList_idem, buildFormdata_clearErrors]

mutual

theorem printErrorsNode_eq_leaves (args : Name → Option PyVal) (pre : Name)
    (node : FieldNode) :
    printErrorsNode args pre node =
      (leavesNode pre node).flatMap
        (fun t => t.2.2.map (errorLine args t.1 t.2.1)) := by
  cases node with
  | leaf seg kind d errs =>
    simp [printErrorsNode, leavesNode]
  | comp seg ctor children =>
    simp only [printErrorsNode, leavesNode]
    exact printErrorsList_eq_leaves args (joinName pre seg) children

theorem printErrorsList_eq_leaves (args : Name → Option PyVal) (pre : Name)
    (fields : List FieldNode) :
    printErrorsList args pre fields =
      (leavesList pre fields).flatMap
        (fun t => t.2.2.map (errorLine args t.1 t.2.1)) := by
  cases fields with
  | nil => rfl
  | cons f rest =>
    simp only [printErrorsList, leavesList, List.flatMap_append]
    rw [printErrorsNode_eq_leaves args pre f,
        printErrorsList_eq_leaves args pre rest]

end

/-- C9: the error reporter emits, walking the tree depth-first in
declaration order, exactly one line per recorded error per leaf, of the
form hyphenated-name, colon, then — for single-valued fields only — the
echoed original input looked up from the stored parsed arguments by the
field's flattened name followed by a colon, then the message with its
first letter lower-cased (multi-valued fields omit the echo). -/
theorem c9_error_reporting (args : Name → Option PyVal)
    (fields : List FieldNode) :
    printErrorsList args [] fields =
      (leavesList [] fields).flatMap
        (fun t => t.2.2.map (errorLine args t.1 t.2.1))
  ∧ (∀ nm kind err, isMultiValue kind = false →
      errorLine args nm kind err =
        hyphenate nm ++ ": ".toList ++ pyStr (args (flatten nm)) ++
          ": ".toList ++ lowerFirst err)
  ∧ (∀ nm kind err, isMultiValue kind = true →
      errorLine args nm kind err =
        hyphenate nm ++ ": ".toList ++ lowerFirst err) := by
  refine ⟨printErrorsList_eq_leaves args [] fields, ?_, ?_⟩
  · intro nm kind err h
    simp [errorLine, h]
  · intro nm kind err h
    simp [errorLine, h]

/-- Witness for C9: a single-valued `number` field with parsed input
"baz" reports `number: baz: not a valid integer value.`; a multi-valued
`multiple` field reports without an echoed value. -/
theorem c9_error_reporting_witness :
    errorLine
        (fun k => if k = "number".toList then some (PyVal.str "baz".toList)
          else none)
        "number".toList .primitive "Not a valid integer value.".toList =
      "number: baz: not a valid integer value.".toList ∧
    errorLine (fun _ => none) "multiple".toList
        (.selectMultiple ["foo".toList])
        "Bar is not a valid choice for this field".toList =
      "multiple: bar is not a valid choice for this field".toList := by
  constructor
  · rw [(c9_error_reporting
        (fun k => if k = "number".toList then some (PyVal.str "baz".toList)
          else none) []).2.1
        "number".toList .primitive "Not a valid integer value.".toList
        (by decide)]
    decide
  · rw [(c9_error_reporting (fun _ => none) []).2.2
        "multiple".toList (.selectMultiple ["foo".toList])
        "Bar is not a valid choice for this field".toList (by decide)]
    decide

/-- C10: `Form.__init__` silently deletes a caller-supplied `formdata`
keyword before initialising: the base initialiser receives no form data
and `self._args` starts unset, while `obj`, `prefix`, `meta`, `data`
and the remaining kwargs (with `formdata` removed and every other entry
unchanged) are recorded for reuse by later binds. -/
theorem c10_init_discards_formdata (obj : Option (List (Name × PyDefault)))
    (pfx : Name) (meta : Option Name)
    (data : Option (List (Name × PyDefault))) (kwargs : List (Name × PyVal)) :
    (formInit obj pfx meta data kwargs).superFormdata = none
  ∧ (formInit obj pfx meta data kwargs).args = none
  ∧ (formInit obj pfx meta data kwargs).record =
      ⟨data, dictRemove kwargs "formdata".toList, meta, obj, pfx⟩
  ∧ alookup (formInit obj pfx meta data kwargs).record.kwargs
      "formdata".toList = none
  ∧ (∀ k, k ≠ "formdata".toList →
      alookup (formInit obj pfx meta data kwargs).record.kwargs k =
        alookup kwargs k) := by
  refine ⟨rfl, rfl, rfl, ?_, ?_⟩
  · exact alookup_dictRemove_self kwargs _
  · intro k hk
    exact alookup_dictRemove_other kwargs _ k hk

/-- Witness for C10: constructing with a `formdata` keyword records the
other kwargs unchanged and no `formdata` entry. -/
theorem c10_init_discards_formdata_witness :
    (formInit none [] none none
        [("formdata".toList, PyVal.obj),
         ("name".toList, PyVal.str "foo".toList)]).record.kwargs =
      [("name".toList, PyVal.str "foo".toList)] ∧
    alookup (formInit none [] none none
        [("formdata".toList, PyVal.obj),
         ("name".toList, PyVal.str "foo".toList)]).record.kwargs
      "formdata".toList = none ∧
    alookup (formInit none [] none none
        [("formdata".toList, PyVal.obj),
         ("name".toList, PyVal.str "foo".toList)]).record.kwargs
      "name".toList = some (PyVal.str "foo".toList) := by
  refine ⟨by decide, (c10_init_discards_formdata none [] none none _).2.2.2.1, ?_⟩
  rw [(c10_init_discards_formdata none [] none none _).2.2.2.2
      "name".toList (by decide)]
  decide

end ClikWtforms

